import Mathlib

/-!
Verification of the incipit backend (src-tauri/src/commands/{project,compilation,settings}.rs).

Filesystem paths are modelled as lists of components (`List String`), rooted at `[]`.
`PathBuf::join` with a relative path is list append; `Path::starts_with` is
component-wise prefix (`List.isPrefixOf`).  A filesystem is modelled by an
existence predicate on paths plus read/write behaviour; symbolic links are not
modelled, so `fs::canonicalize` (realpath) resolves `.` and `..` components
one at a time, requiring every intermediate path to exist.
-/

/-- A minimal filesystem model for the sandboxed file operations in
`src-tauri/src/commands/project.rs`: which paths exist, what reading a path
returns (`fs::read_to_string`), and whether writing at a path succeeds
(`fs::write`). -/
structure Fs where
  ex : List String → Bool
  read : List String → Except String String
  writeOk : List String → Bool

/-- Model of `fs::canonicalize` (realpath) without symlinks: walk the
components, popping on `..`, skipping `.`, and requiring each visited
path to exist.  `cur` is the canonical path resolved so far. -/
def canonGo (ex : List String → Bool) : List String → List String → Option (List String)
  | cur, [] => some cur
  | cur, c :: rest =>
    if c = ".." then canonGo ex cur.dropLast rest
    else if c = "." then canonGo ex cur rest
    else if ex (cur ++ [c]) then canonGo ex (cur ++ [c]) rest
    else none

/-- `fs::canonicalize` on an absolute path given as a component list. -/
def canonicalize (ex : List String → Bool) (p : List String) : Option (List String) :=
  canonGo ex [] p

/-- Model of `Path::exists`: the kernel resolves the whole path, so a path
exists exactly when it canonicalizes. -/
def pexists (ex : List String → Bool) (p : List String) : Bool :=
  (canonicalize ex p).isSome

/-- The access-denied message returned by the sandbox checks in
`read_file` and `save_file` (project.rs). -/
def accessDeniedMsg : String := "Access denied: file is outside project directory"

/-- The `ok_or("Invalid file path")` message in `save_file` (project.rs). -/
def invalidFilePathMsg : String := "Invalid file path"

/-- Model of `read_file` (project.rs lines 100-118): join, canonicalize the
project root and the full path, reject unless the canonical file is under the
canonical project root, else read.  The `format!("...: {}", e)` detail of the
canonicalization errors is abbreviated to a fixed suffix. -/
def read_file (fs : Fs) (project_path file_path : List String) : Except String String :=
  let full_path := project_path ++ file_path
  match canonicalize fs.ex project_path with
  | none => .error "Invalid project path: canonicalization failed"
  | some canonical_project =>
    match canonicalize fs.ex full_path with
    | none => .error "Invalid file path: canonicalization failed"
    | some canonical_file =>
      if canonical_project.isPrefixOf canonical_file then
        fs.read full_path
      else
        .error accessDeniedMsg

/-- The path `save_file` canonicalizes for its containment check: the full
path itself when it exists, else its lexical parent (`Path::parent`, i.e.
drop the last component; `None` for the root). -/
def savePathToCheck (ex : List String → Bool) (full_path : List String) :
    Option (List String) :=
  if pexists ex full_path then some full_path
  else if full_path = [] then none
  else some full_path.dropLast

/-- Result of the final `fs::write(&full_path, content)` in `save_file`. -/
def writeResult (fs : Fs) (p : List String) (content : String) :
    Except String Unit :=
  if fs.writeOk p then .ok () else .error "Failed to write file"

/-- Model of `save_file` (project.rs lines 121-153): canonicalize the root;
for the containment check use the full path when it exists, else its parent
directory; reject unless the checked path canonicalizes under the canonical
root; then write. -/
def save_file (fs : Fs) (project_path file_path : List String) (content : String) :
    Except String Unit :=
  let full_path := project_path ++ file_path
  match canonicalize fs.ex project_path with
  | none => .error "Invalid project path: canonicalization failed"
  | some canonical_project =>
    match savePathToCheck fs.ex full_path with
    | none => .error invalidFilePathMsg
    | some path_to_check =>
      match canonicalize fs.ex path_to_check with
      | none => .error "Invalid file path: canonicalization failed"
      | some canonical_check =>
        if canonical_project.isPrefixOf canonical_check then
          writeResult fs full_path content
        else
          .error accessDeniedMsg

/-- Drop trailing components until an existing path is reached; `fuel`
bounds the number of steps (structural recursion so the definition
evaluates). -/
def neaGo (ex : List String → Bool) : Nat → List String → List String
  | 0, _ => []
  | n + 1, p => if pexists ex p then p else neaGo ex n p.dropLast

/-- The nearest existing ancestor directory of a path, following the spec's
words (spec section 4.1: "the containment check is performed against the
nearest existing ancestor directory"); stated only to compare with what
`save_file` actually checks. -/
def nearestExistingAncestorSpec (ex : List String → Bool) (p : List String) :
    List String :=
  neaGo ex (p.length + 1) p

/-- Render a component list the way the Rust code displays paths in error
messages (joined with `/`). -/
def pathStr (p : List String) : String := String.intercalate "/" p

/-- Model of `Path::file_name`: the last component, skipping trailing `.`
components; `none` when the path ends in `..` or has no components. -/
def fileName (p : List String) : Option String :=
  match (p.filter (fun c => c ≠ ".")).getLast? with
  | none => none
  | some c => if c = ".." then none else some c

/-- The characters before the last `.` of a character list, or `none` when
it has no `.`. -/
def beforeLastDot : List Char → Option (List Char)
  | [] => none
  | c :: rest =>
    match beforeLastDot rest with
    | some tail => some (c :: tail)
    | none => if c = '.' then some [] else none

/-- The stem of a file name, per `Path::file_stem` on a name: the portion
before the final `.`, the whole name when there is no `.`, and the whole
name when the only `.` is the leading one (a leading dot never counts as a
separator). -/
def stemOf (name : String) : String :=
  match name.toList with
  | [] => name
  | c0 :: rest =>
    match beforeLastDot rest with
    | some tail => String.mk (c0 :: tail)
    | none => name

/-- Model of `Path::file_stem` on a component-list path. -/
def fileStem (p : List String) : Option String := (fileName p).map stemOf

/-- The outcome of running the tectonic subprocess:
`output.status.success()` and `output.stderr`. -/
structure EngineRun where
  success : Bool
  stderr : String

/-- Environment for `compile_latex_project` (compilation.rs): the result of
`which_tectonic`, whether the initial `fs::write` fails (`some e` is the io
error text), the subprocess outcome, and the filesystem state after the run
(`Path::exists` and `fs::read` for the produced PDF). -/
structure CompEnv where
  tectonic : Option String
  writeErr : Option String
  run : EngineRun
  pathExists : List String → Bool
  readBytes : List String → Except String (List Nat)

/-- The error message of `which_tectonic` as wrapped by
`compile_latex_project`. -/
def tectonicNotFoundMsg : String :=
  "Tectonic not found: Tectonic not found. Please install tectonic."

/-- The result value of `compile_latex_project` (compilation.rs lines
44-126) once the initial `fs::write` has succeeded: locate tectonic, run it
in the project directory, then read `build/<stem>.pdf` or fall back to
`<project>/<stem>.pdf`, treating empty bytes as failure.  PDF bytes are
modelled as `List Nat`. -/
def clpResult (env : CompEnv) (project_path file_path : List String) :
    Except String (List Nat) :=
  let project_dir := project_path
  match env.tectonic with
  | none => .error tectonicNotFoundMsg
  | some _ =>
    if env.run.success = false then
      .error ("LaTeX compilation failed:\n" ++ env.run.stderr)
    else
      match fileStem file_path with
      | none => .error "Invalid file path"
      | some stem =>
        let pdf_name := stem ++ ".pdf"
        let pdf_path_build := project_dir ++ ["build", pdf_name]
        let pdf_path_main := project_dir ++ [pdf_name]
        match
          (if env.pathExists pdf_path_build then some pdf_path_build
           else if env.pathExists pdf_path_main then some pdf_path_main
           else none) with
        | none =>
          .error ("PDF not found. Checked:\n  - "
            ++ pathStr pdf_path_build ++ "\n  - " ++ pathStr pdf_path_main)
        | some pdf_path =>
          match env.readBytes pdf_path with
          | .error e =>
            .error ("Failed to read output PDF from "
              ++ pathStr pdf_path ++ ": " ++ e)
          | .ok pdf_output =>
            if pdf_output = [] then
              .error "Compilation produced no output"
            else
              .ok pdf_output

/-- The disk writes `compile_latex_project` performs: the unconditional
`fs::write(&full_file_path, &source)` at the joined path — there is no
sandbox check before it. -/
def clpWrites (env : CompEnv) (project_path file_path : List String) :
    List (List String) :=
  match env.writeErr with
  | some _ => []
  | none => [project_path ++ file_path]

/-- Model of `compile_latex_project`: the list of paths the command wrote
to, together with the command's result (the write error short-circuits). -/
def compile_latex_project (env : CompEnv) (project_path file_path : List String)
    (source : String) : List (List String) × Except String (List Nat) :=
  match env.writeErr with
  | some e => ([], .error ("Failed to write file: " ++ e))
  | none =>
    (clpWrites env project_path file_path, clpResult env project_path file_path)

/-- Model of `compile_latex` (compilation.rs lines 27-41): the result of the
in-process `tectonic::latex_to_pdf` call is a parameter; an `Ok` with empty
bytes is turned into an error. -/
def compile_latex (engineResult : Except String (List Nat)) :
    Except String (List Nat) :=
  match engineResult with
  | .error e => .error ("LaTeX compilation failed: " ++ e)
  | .ok pdf_data =>
    if pdf_data = [] then .error "Compilation produced no output"
    else .ok pdf_data

/-- Model of `check_pdf_exists` (project.rs lines 261-275): derive
`<stem>.pdf` from the tex file name and test existence only under the
`build/` subdirectory of the project root. -/
def check_pdf_exists (pathExists : List String → Bool)
    (project_path file_path : List String) : Except String Bool :=
  match fileStem file_path with
  | none => .error "Invalid file path"
  | some stem =>
    let pdf_name := stem ++ ".pdf"
    .ok (pathExists (project_path ++ ["build", pdf_name]))

/-- Model of `load_pdf` (project.rs lines 277-298): same fixed
`build/<stem>.pdf` location, not-found error when absent, else read. -/
def load_pdf (env : CompEnv) (project_path file_path : List String) :
    Except String (List Nat) :=
  match fileStem file_path with
  | none => .error "Invalid file path"
  | some stem =>
    let pdf_name := stem ++ ".pdf"
    let pdf_path := project_path ++ ["build", pdf_name]
    if env.pathExists pdf_path then
      match env.readBytes pdf_path with
      | .ok b => .ok b
      | .error e => .error ("Failed to read PDF: " ++ e)
    else
      .error ("PDF not found at: " ++ pathStr pdf_path)

/-- The `FileNode` structure of project.rs (name, project-relative path,
directory flag, optional ordered children). -/
structure FileNode where
  name : String
  path : String
  is_dir : Bool
  children : Option (List FileNode)

/-- A modelled directory tree on disk: files and directories with names;
`readable` records whether `fs::read_dir` succeeds on the directory. -/
inductive FsEntry where
  | file (name : String)
  | dir (name : String) (readable : Bool) (entries : List FsEntry)

/-- The name of an on-disk entry (`DirEntry::file_name`). -/
def entryName : FsEntry → String
  | .file n => n
  | .dir n _ _ => n

/-- `starts_with('.')`: the first character of the name is a dot. -/
def startsWithDot (n : String) : Bool := n.toList.head? = some '.'

/-- The filter in `build_file_tree` (project.rs lines 53-58): skip hidden
files and the `.incipit` metadata file. -/
def visibleName (n : String) : Bool :=
  !startsWithDot n && n ≠ ".incipit"

/-- Lexicographic `≤` on character lists by code point; for ASCII this is
exactly Rust's byte-wise `String` comparison. -/
def charListLE : List Char → List Char → Bool
  | [], _ => true
  | _ :: _, [] => false
  | a :: as, b :: bs =>
    if a < b then true else if b < a then false else charListLE as bs

/-- A name lowercased character by character (`to_lowercase`; they agree on
ASCII names). -/
def lowerChars (s : String) : List Char := s.toList.map Char.toLower

/-- The comparator of `build_file_tree`'s `sort_by` (project.rs lines
63-69), reflected as a boolean `≤`: directories sort before files, and
within a group names compare case-insensitively. -/
def nodeLE (a b : FileNode) : Bool :=
  match a.is_dir, b.is_dir with
  | true, false => true
  | false, true => false
  | _, _ => charListLE (lowerChars a.name) (lowerChars b.name)

/-- Insert an element after all already-placed elements that are `≤` it;
the building block of a stable sort. -/
def insertStable (le : α → α → Bool) (a : α) : List α → List α
  | [] => [a]
  | b :: bs => if le b a then b :: insertStable le a bs else a :: b :: bs

/-- Stable sort by a boolean `≤`, modelling Rust's stable
`slice::sort_by` (insertion from the left keeps the original order of
equivalent elements). -/
def stableSort (le : α → α → Bool) (l : List α) : List α :=
  l.foldl (fun acc x => insertStable le x acc) []

/-- The sort applied to each children list in `build_file_tree`. -/
def sort_entries (l : List FileNode) : List FileNode := stableSort nodeLE l

mutual

/-- Model of `build_file_tree` (project.rs lines 34-82).  `rel` is the
entry's path relative to the project root (`strip_prefix`), as a component
list; the node's `path` field renders it.  An unreadable directory is the
`fs::read_dir` error case. -/
def build_file_tree : FsEntry → List String → Except String FileNode
  | .file n, rel =>
    .ok { name := n, path := pathStr rel, is_dir := false, children := none }
  | .dir n readable entries, rel =>
    if readable then
      .ok { name := n, path := pathStr rel, is_dir := true,
            children := some (sort_entries (build_children entries rel)) }
    else
      .error ("Failed to read directory " ++ pathStr rel)

/-- The children pipeline of `build_file_tree`: filter out invisible names,
recurse, and keep only the `Ok` results (`.filter(..).filter_map(|entry|
build_file_tree(..).ok())`), in directory order; the caller sorts. -/
def build_children : List FsEntry → List String → List FileNode
  | [], _ => []
  | c :: cs, rel =>
    (if visibleName (entryName c) then
      match build_file_tree c (rel ++ [entryName c]) with
      | .ok node => [node]
      | .error _ => []
    else []) ++ build_children cs rel

end

/-- Model of `open_project` (project.rs lines 84-97): the `path` argument is
resolved against the filesystem to `none` (does not exist) or the entry
found there; existence and directory checks precede the tree build. -/
def open_project : Option FsEntry → Except String FileNode
  | none => .error "Path does not exist"
  | some (.file _) => .error "Path is not a directory"
  | some (e@(.dir _ _ _)) => build_file_tree e []

mutual

/-- The names of all strict descendants of a node (children, grandchildren,
...), used to state what appears "anywhere in the returned tree". -/
def descendantNames : FileNode → List String
  | ⟨_, _, _, none⟩ => []
  | ⟨_, _, _, some cs⟩ => descendantNamesList cs

/-- Names of all nodes in a forest, including the roots of the forest. -/
def descendantNamesList : List FileNode → List String
  | [] => []
  | c :: cs => c.name :: (descendantNames c ++ descendantNamesList cs)

end

/-- JSON values (`serde_json::Value`); numbers are modelled as integers,
object fields keep their order. -/
inductive Json where
  | null
  | bool (b : Bool)
  | num (n : Int)
  | str (s : String)
  | arr (xs : List Json)
  | obj (fields : List (String × Json))

/-- The `ProjectMeta` structure of project.rs. -/
structure ProjectMeta where
  last_opened_file : Option String
  root_file : String
  project_settings : Json

/-- `ProjectMeta::default` (project.rs lines 21-31); `now` is the
`chrono::Utc::now().to_rfc3339()` timestamp. -/
def ProjectMeta.default (now : String) : ProjectMeta :=
  { last_opened_file := some "main.tex"
    root_file := "main.tex"
    project_settings := .obj [("created_at", .str now)] }

/-- serde serialization of `ProjectMeta` (derive `Serialize`), at the JSON
value level: fields in declaration order, `Option` as null-or-value. -/
def ProjectMeta.toJson (m : ProjectMeta) : Json :=
  .obj [("last_opened_file",
          match m.last_opened_file with
          | none => Json.null
          | some s => Json.str s),
        ("root_file", .str m.root_file),
        ("project_settings", m.project_settings)]

/-- First field with the given key (serde rejects duplicates; well-formed
files have each key at most once, so first-lookup models field access). -/
def lookupField (fields : List (String × Json)) (k : String) : Option Json :=
  (fields.find? (fun f => f.1 = k)).map (fun f => f.2)

/-- serde deserialization of an `Option<String>` field: a missing field or
an explicit null is `None`. -/
def decodeOptStr : Option Json → Except String (Option String)
  | none => .ok none
  | some .null => .ok none
  | some (.str s) => .ok (some s)
  | some _ => .error "invalid type for last_opened_file"

/-- serde deserialization of `ProjectMeta` (derive `Deserialize`), at the
JSON value level: `last_opened_file` optional, the other fields required. -/
def ProjectMeta.fromJson : Json → Except String ProjectMeta
  | .obj fields => do
    let lof ← decodeOptStr (lookupField fields "last_opened_file")
    let rf ←
      match lookupField fields "root_file" with
      | some (.str s) => Except.ok s
      | some _ => Except.error "invalid type for root_file"
      | none => Except.error "missing field root_file"
    let ps ←
      match lookupField fields "project_settings" with
      | some j => Except.ok j
      | none => Except.error "missing field project_settings"
    .ok { last_opened_file := lof, root_file := rf, project_settings := ps }
  | _ => .error "invalid type: expected object"

/-- The metadata/settings filesystem: JSON file contents by path.  The
string rendering (`serde_json::to_string_pretty`) and parsing
(`serde_json::from_str`) of the external serde_json crate are inverse on
values it produces, so file contents are modelled at the JSON value level;
a present entry is a readable, well-formed JSON file. -/
def MetaFs : Type := List String → Option Json

/-- Model of `save_project_meta` (project.rs lines 170-178): serialize and
overwrite `<root>/.incipit` wholesale. -/
def save_project_meta (fs : MetaFs) (project_path : List String)
    (meta : ProjectMeta) : MetaFs :=
  fun p =>
    if p = project_path ++ [".incipit"] then some meta.toJson else fs p

/-- Model of `load_project_meta` (project.rs lines 155-168): defaults when
`<root>/.incipit` does not exist, else read and parse.  `now` feeds
`ProjectMeta::default`'s timestamp. -/
def load_project_meta (fs : MetaFs) (project_path : List String)
    (now : String) : Except String ProjectMeta :=
  match fs (project_path ++ [".incipit"]) with
  | none => .ok (ProjectMeta.default now)
  | some j => ProjectMeta.fromJson j

/-- The `GlobalSettings` structure of settings.rs. -/
structure GlobalSettings where
  recent_projects : List String
  editor_settings : Json

/-- `GlobalSettings::default` (settings.rs lines 11-18). -/
def GlobalSettings.default : GlobalSettings :=
  { recent_projects := [], editor_settings := .obj [] }

/-- serde deserialization of `GlobalSettings`, both fields required. -/
def GlobalSettings.fromJson : Json → Except String GlobalSettings
  | .obj fields => do
    let rp ←
      match lookupField fields "recent_projects" with
      | some (.arr xs) =>
        xs.foldr
          (fun j acc => do
            let tl ← acc
            match j with
            | .str s => Except.ok (s :: tl)
            | _ => Except.error "invalid type in recent_projects")
          (Except.ok [])
      | some _ => Except.error "invalid type for recent_projects"
      | none => Except.error "missing field recent_projects"
    let es ←
      match lookupField fields "editor_settings" with
      | some j => Except.ok j
      | none => Except.error "missing field editor_settings"
    .ok { recent_projects := rp, editor_settings := es }
  | _ => .error "invalid type: expected object"

/-- Model of `load_global_settings` (settings.rs lines 36-48):
`configDirOk` is whether `dirs::config_dir()` succeeds; `content` is the
settings.json contents at the config path (`none` when absent). -/
def load_global_settings (configDirOk : Bool) (content : Option Json) :
    Except String GlobalSettings :=
  if configDirOk then
    match content with
    | none => .ok GlobalSettings.default
    | some j => GlobalSettings.fromJson j
  else
    .error "Failed to determine config directory"

deriving instance DecidableEq for Except

/-- C3: for a project root R and relative path P, when both R and the joined
path canonicalize, the sandbox check in `read_file` accepts exactly when the
canonical file lies under the canonical root: on acceptance the result is
whatever the filesystem read returns, and otherwise `read_file` returns the
access-denied error (and performs no read). -/
theorem read_file_sandbox (fs : Fs) (R P cr cf : List String)
    (hR : canonicalize fs.ex R = some cr)
    (hF : canonicalize fs.ex (R ++ P) = some cf) :
    (cr.isPrefixOf cf = true → read_file fs R P = fs.read (R ++ P)) ∧
    (cr.isPrefixOf cf = false → read_file fs R P = .error accessDeniedMsg) := by
  simp only [read_file, hR, hF]
  constructor <;> intro h <;> simp [h]

/-- An example filesystem: a project at `/home/proj` holding `a.tex`, and an
out-of-tree `/etc/passwd`. -/
def exA : List String → Bool := fun p =>
  decide (p ∈ ([[], ["home"], ["home", "proj"], ["home", "proj", "a.tex"],
                ["etc"], ["etc", "passwd"]] : List (List String)))

/-- The example filesystem packaged with read/write behaviour. -/
def fsA : Fs :=
  { ex := exA
    read := fun p =>
      if p = ["home", "proj", "a.tex"] then .ok "\\documentclass{article}"
      else .error "io error"
    writeOk := fun _ => true }

theorem read_file_sandbox_witness :
    (canonicalize fsA.ex ["home", "proj"] = some ["home", "proj"] ∧
      read_file fsA ["home", "proj"] ["a.tex"]
        = fsA.read (["home", "proj"] ++ ["a.tex"])) ∧
    (canonicalize fsA.ex (["home", "proj"] ++ ["..", "..", "etc", "passwd"])
        = some ["etc", "passwd"] ∧
      read_file fsA ["home", "proj"] ["..", "..", "etc", "passwd"]
        = .error accessDeniedMsg) :=
  ⟨⟨by decide,
    (read_file_sandbox fsA ["home", "proj"] ["a.tex"] ["home", "proj"]
      ["home", "proj", "a.tex"] (by decide) (by decide)).1 (by decide)⟩,
   ⟨by decide,
    (read_file_sandbox fsA ["home", "proj"] ["..", "..", "etc", "passwd"]
      ["home", "proj"] ["etc", "passwd"] (by decide) (by decide)).2 (by decide)⟩⟩

/-- C1 (amended): `read_file` and `save_file` perform the path-sandbox
check — each rejects with the access-denied error whenever the canonical
form of the path it checks (the file itself for `read_file`; the file or,
for a new file, its parent for `save_file`) does not lie under the
canonical project root — but the disk write performed by
`compile_latex_project` is not sandbox-checked: it writes to the joined
path `project/file` unconditionally. -/
theorem command_surface_sandbox (fs : Fs) (env : CompEnv)
    (R P cr cf : List String) (content : String)
    (hR : canonicalize fs.ex R = some cr) :
    (canonicalize fs.ex (R ++ P) = some cf → cr.isPrefixOf cf = false →
      read_file fs R P = .error accessDeniedMsg) ∧
    (savePathToCheck fs.ex (R ++ P) = some (R ++ P) →
      canonicalize fs.ex (R ++ P) = some cf → cr.isPrefixOf cf = false →
      save_file fs R P content = .error accessDeniedMsg) ∧
    (env.writeErr = none →
      (compile_latex_project env R P content).1 = [R ++ P]) := by
  refine ⟨fun hF hpre => ?_, fun hchk hF hpre => ?_, fun hw => ?_⟩
  · simp only [read_file, hR, hF]
    simp [hpre]
  · simp only [save_file, hR, hchk, hF]
    simp [hpre]
  · simp [compile_latex_project, clpWrites, hw]

/-- Filesystem existence for the C1 counterexample: the project lives at
`/home/proj`, and `/home/evil.tex` is the escaped write target (as it
exists after the unchecked write). -/
def exC1 : List String → Bool := fun p =>
  decide (p ∈ ([["home"], ["home", "proj"], ["home", "evil.tex"]] :
    List (List String)))

/-- Environment for the C1 counterexample: tectonic is found, the write
succeeds, the engine reports success, and the produced PDF exists under
`build/`. -/
def envC1 : CompEnv :=
  { tectonic := some "/usr/bin/tectonic"
    writeErr := none
    run := { success := true, stderr := "" }
    pathExists := fun p => decide (p = ["home", "proj", "build", "evil.pdf"])
    readBytes := fun p =>
      if p = ["home", "proj", "build", "evil.pdf"] then .ok [1]
      else .error "io error" }

/-- C1 counterexample: with project root `/home/proj` and relative path
`../evil.tex`, the canonical form of the written path is `/home/evil.tex`,
which does not lie under the canonical project root — yet
`compile_latex_project` performs the disk write at that escaped path and
completes successfully instead of rejecting the request. -/
theorem c1_counterexample :
    canonicalize exC1 ["home", "proj"] = some ["home", "proj"] ∧
    canonicalize exC1 (["home", "proj"] ++ ["..", "evil.tex"])
      = some ["home", "evil.tex"] ∧
    List.isPrefixOf ["home", "proj"] ["home", "evil.tex"] = false ∧
    compile_latex_project envC1 ["home", "proj"] ["..", "evil.tex"] "x"
      = ([["home", "proj", "..", "evil.tex"]], .ok [1]) :=
  ⟨by decide, by decide, by decide, by rfl⟩

/-- C2 (amended): for `save_file` on a file path that does not yet exist,
the containment check is performed against the immediate parent of the
target path (not its nearest existing ancestor): the write proceeds when
that parent canonicalizes under the canonical project root, is rejected
with the access-denied error when it canonicalizes elsewhere, and is
rejected with an invalid-file-path error when the parent itself cannot be
canonicalized (e.g. intermediate directories do not exist). -/
theorem save_file_parent_check (fs : Fs) (R P : List String) (content : String)
    (cr : List String)
    (hR : canonicalize fs.ex R = some cr)
    (hnew : pexists fs.ex (R ++ P) = false)
    (hne : R ++ P ≠ []) :
    (canonicalize fs.ex (R ++ P).dropLast = none →
      save_file fs R P content
        = .error "Invalid file path: canonicalization failed") ∧
    (∀ cc, canonicalize fs.ex (R ++ P).dropLast = some cc →
      cr.isPrefixOf cc = true →
      save_file fs R P content = writeResult fs (R ++ P) content) ∧
    (∀ cc, canonicalize fs.ex (R ++ P).dropLast = some cc →
      cr.isPrefixOf cc = false →
      save_file fs R P content = .error accessDeniedMsg) := by
  have hchk : savePathToCheck fs.ex (R ++ P) = some (R ++ P).dropLast := by
    simp [savePathToCheck, hnew, hne]
  refine ⟨fun hc => ?_, fun cc hc hpre => ?_, fun cc hc hpre => ?_⟩ <;>
    simp only [save_file, hR, hchk, hc] <;> simp [hpre]

/-- Filesystem for the C2 counterexample and witness: only `/home` and the
project root `/home/proj` exist; every write succeeds. -/
def fsC2 : Fs :=
  { ex := fun p =>
      decide (p ∈ ([[], ["home"], ["home", "proj"]] : List (List String)))
    read := fun _ => .error "io error"
    writeOk := fun _ => true }

/-- C2 counterexample: saving `newdir/f.tex` under root `/home/proj` when
`newdir` does not exist.  The nearest existing ancestor of the target is
the project root itself, which canonicalizes under the root, so the claim
says the write is accepted — but `save_file` only canonicalizes the
immediate parent `/home/proj/newdir`, which fails, and the call returns an
invalid-file-path error instead of writing. -/
theorem c2_counterexample :
    nearestExistingAncestorSpec fsC2.ex
        (["home", "proj"] ++ ["newdir", "f.tex"]) = ["home", "proj"] ∧
    canonicalize fsC2.ex ["home", "proj"] = some ["home", "proj"] ∧
    List.isPrefixOf ["home", "proj"] ["home", "proj"] = true ∧
    save_file fsC2 ["home", "proj"] ["newdir", "f.tex"] "x"
      = .error "Invalid file path: canonicalization failed" :=
  ⟨by decide, by decide, by decide, by decide⟩

/-- Witness for the amended C2 theorem: saving the new file `f.tex`
directly under the existing project root is accepted (the parent is the
root itself), and the write proceeds. -/
theorem save_file_parent_check_witness :
    pexists fsC2.ex (["home", "proj"] ++ ["f.tex"]) = false ∧
    canonicalize fsC2.ex (["home", "proj"] ++ ["f.tex"]).dropLast
      = some ["home", "proj"] ∧
    save_file fsC2 ["home", "proj"] ["f.tex"] "x"
      = writeResult fsC2 (["home", "proj"] ++ ["f.tex"]) "x" :=
  ⟨by decide, by decide,
    (save_file_parent_check fsC2 ["home", "proj"] ["f.tex"] "x" ["home", "proj"]
        (by decide) (by decide) (by decide)).2.1
      ["home", "proj"] (by decide) (by decide)⟩

/-- C9: when the engine exits with failure, `compile_latex_project` returns
an error whose text contains the engine's stderr; when the engine reports
success but no output PDF exists at either candidate location the command
errors; when the produced PDF is empty the command errors; and
`compile_latex` turns an engine success with empty bytes into an error. -/
theorem compile_error_handling (env : CompEnv) (R P : List String)
    (s t stem : String)
    (hw : env.writeErr = none) (ht : env.tectonic = some t) :
    (env.run.success = false →
      (compile_latex_project env R P s).2
        = .error ("LaTeX compilation failed:\n" ++ env.run.stderr)) ∧
    (env.run.success = true → fileStem P = some stem →
      env.pathExists (R ++ ["build", stem ++ ".pdf"]) = false →
      env.pathExists (R ++ [stem ++ ".pdf"]) = false →
      (compile_latex_project env R P s).2
        = .error ("PDF not found. Checked:\n  - "
            ++ pathStr (R ++ ["build", stem ++ ".pdf"])
            ++ "\n  - " ++ pathStr (R ++ [stem ++ ".pdf"]))) ∧
    (env.run.success = true → fileStem P = some stem →
      env.pathExists (R ++ ["build", stem ++ ".pdf"]) = true →
      env.readBytes (R ++ ["build", stem ++ ".pdf"]) = .ok [] →
      (compile_latex_project env R P s).2
        = .error "Compilation produced no output") ∧
    compile_latex (.ok []) = .error "Compilation produced no output" := by
  refine ⟨fun hfail => ?_, fun hok hstem hb hm => ?_,
          fun hok hstem hb hr => ?_, by simp [compile_latex]⟩
  · simp [compile_latex_project, clpResult, hw, ht, hfail]
  · simp [compile_latex_project, clpResult, hw, ht, hok, hstem, hb, hm]
  · simp [compile_latex_project, clpResult, hw, ht, hok, hstem, hb, hr]

/-- Environment: tectonic found, write ok, engine exits with failure and a
diagnostic on stderr. -/
def envFail : CompEnv :=
  { tectonic := some "tectonic", writeErr := none
    run := { success := false, stderr := "! Undefined control sequence" }
    pathExists := fun _ => false
    readBytes := fun _ => .error "io error" }

/-- Environment: engine reports success but leaves no output file. -/
def envNoPdf : CompEnv :=
  { tectonic := some "tectonic", writeErr := none
    run := { success := true, stderr := "" }
    pathExists := fun _ => false
    readBytes := fun _ => .error "io error" }

/-- Environment: engine reports success and the PDF under `build/` is
empty. -/
def envEmptyPdf : CompEnv :=
  { tectonic := some "tectonic", writeErr := none
    run := { success := true, stderr := "" }
    pathExists := fun p => decide (p = ["proj", "build", "main.pdf"])
    readBytes := fun p =>
      if p = ["proj", "build", "main.pdf"] then .ok [] else .error "io error" }

theorem compile_error_handling_witness :
    (compile_latex_project envFail ["proj"] ["main.tex"] "s").2
      = .error ("LaTeX compilation failed:\n! Undefined control sequence") ∧
    (compile_latex_project envNoPdf ["proj"] ["main.tex"] "s").2
      = .error ("PDF not found. Checked:\n  - proj/build/main.pdf\n  - proj/main.pdf") ∧
    (compile_latex_project envEmptyPdf ["proj"] ["main.tex"] "s").2
      = .error "Compilation produced no output" :=
  ⟨(compile_error_handling envFail ["proj"] ["main.tex"] "s" "tectonic" "main"
      (by decide) (by decide)).1 (by decide),
   (compile_error_handling envNoPdf ["proj"] ["main.tex"] "s" "tectonic" "main"
      (by decide) (by decide)).2.1 (by decide) (by decide) (by decide) (by decide),
   (compile_error_handling envEmptyPdf ["proj"] ["main.tex"] "s" "tectonic" "main"
      (by decide) (by decide)).2.2.1 (by decide) (by decide) (by decide) (by decide)⟩

/-- C10: `check_pdf_exists` and `load_pdf` look for the output only at
`build/<stem>.pdf` under the project root; when the PDF exists only in the
project directory itself — where the fallback in `compile_latex_project`
finds and returns it — `check_pdf_exists` answers `false` and `load_pdf`
returns a not-found error. -/
theorem pdf_lookup_build_only (env : CompEnv) (R P : List String)
    (s t stem : String) (bs : List Nat)
    (hstem : fileStem P = some stem)
    (hb : env.pathExists (R ++ ["build", stem ++ ".pdf"]) = false)
    (hm : env.pathExists (R ++ [stem ++ ".pdf"]) = true)
    (hw : env.writeErr = none) (ht : env.tectonic = some t)
    (hok : env.run.success = true)
    (hr : env.readBytes (R ++ [stem ++ ".pdf"]) = .ok bs)
    (hbs : bs ≠ []) :
    check_pdf_exists env.pathExists R P = .ok false ∧
    load_pdf env R P
      = .error ("PDF not found at: " ++ pathStr (R ++ ["build", stem ++ ".pdf"])) ∧
    (compile_latex_project env R P s).2 = .ok bs := by
  refine ⟨?_, ?_, ?_⟩
  · simp [check_pdf_exists, hstem, hb]
  · simp [load_pdf, hstem, hb]
  · simp [compile_latex_project, clpResult, hw, ht, hok, hstem, hb, hm, hr, hbs]

/-- Environment for the C10 witness: the engine succeeded and `main.pdf`
exists only directly in the project directory, not under `build/`. -/
def envFallback : CompEnv :=
  { tectonic := some "tectonic", writeErr := none
    run := { success := true, stderr := "" }
    pathExists := fun p => decide (p = ["proj", "main.pdf"])
    readBytes := fun p =>
      if p = ["proj", "main.pdf"] then .ok [7] else .error "io error" }

theorem pdf_lookup_build_only_witness :
    check_pdf_exists envFallback.pathExists ["proj"] ["main.tex"] = .ok false ∧
    load_pdf envFallback ["proj"] ["main.tex"]
      = .error "PDF not found at: proj/build/main.pdf" ∧
    (compile_latex_project envFallback ["proj"] ["main.tex"] "s").2 = .ok [7] :=
  pdf_lookup_build_only envFallback ["proj"] ["main.tex"] "s" "tectonic" "main"
    [7] (by decide) (by decide) (by decide) (by decide) (by decide) (by decide)
    (by decide) (by decide)

lemma charListLE_total : ∀ as bs, charListLE as bs = true ∨ charListLE bs as = true := by
  intro as
  induction as with
  | nil => intro bs; left; rfl
  | cons a as ih =>
    intro bs
    cases bs with
    | nil => right; rfl
    | cons b bs =>
      rcases lt_trichotomy a b with h | h | h
      · left; simp [charListLE, h]
      · subst h
        rcases ih bs with h' | h'
        · left; simp [charListLE, h']
        · right; simp [charListLE, h']
      · right; simp [charListLE, h]

lemma charListLE_trans :
    ∀ as bs cs, charListLE as bs = true → charListLE bs cs = true →
      charListLE as cs = true := by
  intro as
  induction as with
  | nil => intro bs cs _ _; rfl
  | cons a as ih =>
    intro bs cs h₁ h₂
    cases bs with
    | nil => simp [charListLE] at h₁
    | cons b bs =>
      cases cs with
      | nil => simp [charListLE] at h₂
      | cons c cs =>
        rcases lt_trichotomy a b with hab | hab | hab
        · rcases lt_trichotomy b c with hbc | hbc | hbc
          · simp [charListLE, lt_trans hab hbc]
          · subst hbc; simp [charListLE, hab]
          · simp [charListLE, hbc, not_lt_of_gt hbc] at h₂
        · subst hab
          rcases lt_trichotomy a c with hac | hac | hac
          · simp [charListLE, hac]
          · subst hac
            simp [charListLE, lt_irrefl] at h₁ h₂ ⊢
            exact ih _ _ h₁ h₂
          · simp [charListLE, hac, not_lt_of_gt hac] at h₂
        · simp [charListLE, hab, not_lt_of_gt hab] at h₁

lemma nodeLE_total : ∀ a b : FileNode, nodeLE a b = true ∨ nodeLE b a = true := by
  rintro ⟨n₁, p₁, d₁, c₁⟩ ⟨n₂, p₂, d₂, c₂⟩
  cases d₁ <;> cases d₂ <;> simp [nodeLE] <;>
    exact charListLE_total (lowerChars n₁) (lowerChars n₂)

lemma nodeLE_trans :
    ∀ a b c : FileNode, nodeLE a b = true → nodeLE b c = true →
      nodeLE a c = true := by
  rintro ⟨n₁, p₁, d₁, c₁⟩ ⟨n₂, p₂, d₂, c₂⟩ ⟨n₃, p₃, d₃, c₃⟩ h₁ h₂
  cases d₁ <;> cases d₂ <;> cases d₃ <;>
    simp_all [nodeLE] <;>
    exact charListLE_trans _ _ _ h₁ h₂

lemma mem_insertStable (le : α → α → Bool) (a x : α) :
    ∀ l, x ∈ insertStable le a l ↔ x = a ∨ x ∈ l := by
  intro l
  induction l with
  | nil => simp [insertStable]
  | cons b bs ih =>
    by_cases h : le b a = true
    · rw [insertStable, if_pos h]
      simp [ih]
      try tauto
    · rw [insertStable, if_neg h]
      simp
      try tauto

lemma insertStable_pairwise (le : α → α → Bool)
    (htrans : ∀ a b c, le a b = true → le b c = true → le a c = true)
    (htotal : ∀ a b, le a b = true ∨ le b a = true) (a : α) :
    ∀ l, l.Pairwise (fun x y => le x y = true) →
      (insertStable le a l).Pairwise (fun x y => le x y = true) := by
  intro l
  induction l with
  | nil => intro _; simp [insertStable]
  | cons b bs ih =>
    intro hp
    rw [List.pairwise_cons] at hp
    obtain ⟨hb, hbs⟩ := hp
    by_cases h : le b a = true
    · rw [insertStable, if_pos h]
      rw [List.pairwise_cons]
      refine ⟨fun x hx => ?_, ih hbs⟩
      rcases (mem_insertStable le a x bs).mp hx with rfl | hx
      · exact h
      · exact hb x hx
    · rw [insertStable, if_neg h]
      rw [List.pairwise_cons]
      have hab : le a b = true := by
        rcases htotal a b with h' | h'
        · exact h'
        · exact absurd h' h
      refine ⟨fun x hx => ?_, ?_⟩
      · rcases List.mem_cons.mp hx with rfl | hx
        · exact hab
        · exact htrans a b x hab (hb x hx)
      · rw [List.pairwise_cons]
        exact ⟨hb, hbs⟩

lemma foldl_insertStable_pairwise (le : α → α → Bool)
    (htrans : ∀ a b c, le a b = true → le b c = true → le a c = true)
    (htotal : ∀ a b, le a b = true ∨ le b a = true) :
    ∀ (l acc : List α), acc.Pairwise (fun x y => le x y = true) →
      (l.foldl (fun acc x => insertStable le x acc) acc).Pairwise
        (fun x y => le x y = true) := by
  intro l
  induction l with
  | nil => intro acc h; exact h
  | cons x xs ih =>
    intro acc h
    exact ih _ (insertStable_pairwise le htrans htotal x acc h)

lemma stableSort_pairwise (le : α → α → Bool)
    (htrans : ∀ a b c, le a b = true → le b c = true → le a c = true)
    (htotal : ∀ a b, le a b = true ∨ le b a = true) (l : List α) :
    (stableSort le l).Pairwise (fun x y => le x y = true) :=
  foldl_insertStable_pairwise le htrans htotal l [] (by simp)

lemma mem_foldl_insertStable (le : α → α → Bool) (x : α) :
    ∀ (l acc : List α),
      (x ∈ l.foldl (fun acc y => insertStable le y acc) acc ↔ x ∈ acc ∨ x ∈ l) := by
  intro l
  induction l with
  | nil => intro acc; simp
  | cons y ys ih =>
    intro acc
    rw [List.foldl_cons, ih, mem_insertStable]
    simp
    tauto

lemma mem_stableSort (le : α → α → Bool) (x : α) (l : List α) :
    x ∈ stableSort le l ↔ x ∈ l := by
  rw [stableSort, mem_foldl_insertStable]
  simp

lemma mem_sort_entries (x : FileNode) (l : List FileNode) :
    x ∈ sort_entries l ↔ x ∈ l :=
  mem_stableSort nodeLE x l

/-- C5: in every children list produced by `build_file_tree`, siblings are
ordered by the comparator — all directories before all files, and within
each group case-insensitive name order; in particular the entries
`{"b.tex", "A/", "a.tex"}` come out in the order `["A/", "a.tex",
"b.tex"]`. -/
theorem children_order :
    (∀ (e : FsEntry) (rel : List String) (node : FileNode) (cs : List FileNode),
      build_file_tree e rel = .ok node → node.children = some cs →
      cs.Pairwise (fun a b => nodeLE a b = true)) ∧
    sort_entries
      [{ name := "b.tex", path := "b.tex", is_dir := false, children := none },
       { name := "A", path := "A", is_dir := true, children := some [] },
       { name := "a.tex", path := "a.tex", is_dir := false, children := none }]
    = [{ name := "A", path := "A", is_dir := true, children := some [] },
       { name := "a.tex", path := "a.tex", is_dir := false, children := none },
       { name := "b.tex", path := "b.tex", is_dir := false, children := none }] := by
  constructor
  · rintro e rel node cs h hc
    cases e with
    | file n =>
      rw [build_file_tree] at h
      cases h
      simp at hc
    | dir n r entries =>
      cases r with
      | false =>
        rw [build_file_tree] at h
        simp at h
      | true =>
        rw [build_file_tree] at h
        simp at h
        subst h
        simp at hc
        subst hc
        exact stableSort_pairwise nodeLE nodeLE_trans nodeLE_total _
  · rfl

theorem children_order_witness :
    build_file_tree
      (.dir "proj" true [.file "b.tex", .dir "A" true [], .file "a.tex"]) []
      = .ok { name := "proj", path := "", is_dir := true,
              children := some
                [{ name := "A", path := "A", is_dir := true, children := some [] },
                 { name := "a.tex", path := "a.tex", is_dir := false,
                   children := none },
                 { name := "b.tex", path := "b.tex", is_dir := false,
                   children := none }] } ∧
    List.Pairwise (fun a b => nodeLE a b = true)
      [{ name := "A", path := "A", is_dir := true, children := some [] },
       { name := "a.tex", path := "a.tex", is_dir := false, children := none },
       { name := "b.tex", path := "b.tex", is_dir := false, children := none }] :=
  ⟨by rfl,
   children_order.1
     (.dir "proj" true [.file "b.tex", .dir "A" true [], .file "a.tex"]) []
     _ _ (by rfl) (by rfl)⟩

lemma build_file_tree_name :
    ∀ (e : FsEntry) (rel : List String) (node : FileNode),
      build_file_tree e rel = .ok node → node.name = entryName e := by
  rintro e rel node h
  cases e with
  | file n =>
    rw [build_file_tree] at h
    cases h
    rfl
  | dir n r entries =>
    cases r with
    | false => rw [build_file_tree] at h; simp at h
    | true =>
      rw [build_file_tree] at h
      simp at h
      subst h
      rfl

lemma mem_build_children :
    ∀ (es : List FsEntry) (rel : List String) (node : FileNode),
      node ∈ build_children es rel →
      ∃ c ∈ es, visibleName (entryName c) = true ∧
        build_file_tree c (rel ++ [entryName c]) = .ok node := by
  intro es
  induction es with
  | nil => intro rel node h; simp [build_children] at h
  | cons c cs ih =>
    intro rel node h
    rw [build_children] at h
    rcases List.mem_append.mp h with h' | h'
    · by_cases hv : visibleName (entryName c) = true
      · rw [if_pos hv] at h'
        rcases hb : build_file_tree c (rel ++ [entryName c]) with e | nd
        · rw [hb] at h'; simp at h'
        · rw [hb] at h'
          simp at h'
          subst h'
          exact ⟨c, List.mem_cons_self c cs, hv, hb⟩
      · rw [if_neg hv] at h'
        simp at h'
    · obtain ⟨c', hc', hv, hb⟩ := ih rel node h'
      exact ⟨c', List.mem_cons_of_mem c hc', hv, hb⟩

lemma mem_descendantNamesList :
    ∀ (l : List FileNode) (nm : String),
      nm ∈ descendantNamesList l ↔
        ∃ c ∈ l, nm = c.name ∨ nm ∈ descendantNames c := by
  intro l
  induction l with
  | nil => intro nm; simp [descendantNamesList]
  | cons c cs ih =>
    intro nm
    rw [descendantNamesList]
    constructor
    · intro h
      rcases List.mem_cons.mp h with rfl | h
      · exact ⟨c, List.mem_cons_self c cs, Or.inl rfl⟩
      · rcases List.mem_append.mp h with h | h
        · exact ⟨c, List.mem_cons_self c cs, Or.inr h⟩
        · obtain ⟨d, hd, hcase⟩ := (ih nm).mp h
          exact ⟨d, List.mem_cons_of_mem c hd, hcase⟩
    · rintro ⟨d, hd, hcase⟩
      rcases List.mem_cons.mp hd with rfl | hd
      · rcases hcase with rfl | hmem
        · exact List.mem_cons_self _ _
        · exact List.mem_cons_of_mem _ (List.mem_append.mpr (Or.inl hmem))
      · rcases hcase with rfl | hmem
        · exact List.mem_cons_of_mem _
            (List.mem_append.mpr (Or.inr ((ih _).mpr ⟨d, hd, Or.inl rfl⟩)))
        · exact List.mem_cons_of_mem _
            (List.mem_append.mpr (Or.inr ((ih _).mpr ⟨d, hd, Or.inr hmem⟩)))

lemma visible_descendants_aux :
    ∀ (k : Nat) (e : FsEntry), sizeOf e ≤ k →
      ∀ (rel : List String) (node : FileNode),
        build_file_tree e rel = .ok node →
        ∀ nm ∈ descendantNames node, visibleName nm = true := by
  intro k
  induction k with
  | zero =>
    intro e he
    exfalso
    cases e <;> simp_arith at he
  | succ k ih =>
    intro e he rel node h nm hnm
    cases e with
    | file n =>
      rw [build_file_tree] at h
      cases h
      rw [descendantNames] at hnm
      simp at hnm
    | dir n r es =>
      cases r with
      | false => rw [build_file_tree] at h; simp at h
      | true =>
        rw [build_file_tree] at h
        simp at h
        subst h
        rw [descendantNames] at hnm
        obtain ⟨c, hcmem, hcase⟩ := (mem_descendantNamesList _ nm).mp hnm
        have hc' : c ∈ build_children es rel := (mem_sort_entries c _).mp hcmem
        obtain ⟨orig, horig, hv, hb⟩ := mem_build_children es rel c hc'
        have h1 := List.sizeOf_lt_of_mem horig
        have h2 : sizeOf (FsEntry.dir n true es) = 1 + sizeOf n + 1 + sizeOf es := by
          simp_arith
        have hsz : sizeOf orig ≤ k := by
          rw [h2] at he
          omega
        rcases hcase with rfl | hmem
        · rw [build_file_tree_name orig (rel ++ [entryName orig]) c hb]
          exact hv
        · exact ih orig hsz (rel ++ [entryName orig]) c hb nm hmem

/-- C4: every node anywhere inside the tree returned by `build_file_tree`
(hence by `open_project`) has a name that does not start with a dot and is
not the reserved `.incipit` metadata file — both are filtered out of every
directory listing. -/
theorem tree_excludes_hidden (e : FsEntry) (rel : List String) (node : FileNode)
    (h : build_file_tree e rel = .ok node) :
    ∀ nm ∈ descendantNames node, startsWithDot nm = false ∧ nm ≠ ".incipit" := by
  intro nm hnm
  have hv := visible_descendants_aux (sizeOf e) e le_rfl rel node h nm hnm
  simpa [visibleName, Bool.and_eq_true, Bool.not_eq_true'] using hv

theorem tree_excludes_hidden_witness :
    build_file_tree
      (.dir "proj" true [.file ".hidden", .file ".incipit", .file "main.tex"]) []
      = .ok { name := "proj", path := "", is_dir := true,
              children := some
                [{ name := "main.tex", path := "main.tex", is_dir := false,
                   children := none }] } ∧
    (startsWithDot "main.tex" = false ∧ "main.tex" ≠ ".incipit") :=
  ⟨by rfl,
   tree_excludes_hidden
     (.dir "proj" true [.file ".hidden", .file ".incipit", .file "main.tex"]) []
     { name := "proj", path := "", is_dir := true,
       children := some
         [{ name := "main.tex", path := "main.tex", is_dir := false,
            children := none }] }
     (by rfl) "main.tex" (by decide)⟩

lemma build_children_append :
    ∀ (xs ys : List FsEntry) (rel : List String),
      build_children (xs ++ ys) rel
        = build_children xs rel ++ build_children ys rel := by
  intro xs
  induction xs with
  | nil => intro ys rel; simp [build_children]
  | cons c cs ih =>
    intro ys rel
    rw [List.cons_append, build_children, build_children, ih, List.append_assoc]

lemma build_children_unreadable (m : String) (sub : List FsEntry)
    (rel : List String) :
    build_children [FsEntry.dir m false sub] rel = [] := by
  rw [build_children]
  by_cases hv : visibleName (entryName (FsEntry.dir m false sub)) = true
  · rw [if_pos hv]
    have hb : build_file_tree (FsEntry.dir m false sub)
        (rel ++ [entryName (FsEntry.dir m false sub)])
        = .error ("Failed to read directory "
            ++ pathStr (rel ++ [entryName (FsEntry.dir m false sub)])) := by
      rw [build_file_tree]
      simp
    rw [hb]
    simp [build_children]
  · rw [if_neg hv]
    simp [build_children]

/-- C6: a directory whose entries cannot be read is omitted from its
parent's children while the rest of the tree is produced unchanged, and the
`open_project` call on a readable root always succeeds — a subtree read
failure never aborts the whole tree. -/
theorem subtree_failure_omitted (n m : String) (es1 es2 sub : List FsEntry)
    (rel : List String) :
    build_file_tree (.dir n true (es1 ++ FsEntry.dir m false sub :: es2)) rel
      = build_file_tree (.dir n true (es1 ++ es2)) rel ∧
    (∃ node,
      build_file_tree (.dir n true (es1 ++ FsEntry.dir m false sub :: es2)) rel
        = .ok node) ∧
    (∃ node,
      open_project (some (.dir n true (es1 ++ FsEntry.dir m false sub :: es2)))
        = .ok node) := by
  have hbc : build_children (es1 ++ FsEntry.dir m false sub :: es2) rel
      = build_children (es1 ++ es2) rel := by
    have hsplit : FsEntry.dir m false sub :: es2
        = [FsEntry.dir m false sub] ++ es2 := rfl
    rw [hsplit, build_children_append, build_children_append,
        build_children_append, build_children_unreadable]
    simp
  refine ⟨?_, ?_, ?_⟩
  · simp only [build_file_tree, hbc]
  · exact ⟨{ name := n, path := pathStr rel, is_dir := true,
             children := some (sort_entries
               (build_children (es1 ++ FsEntry.dir m false sub :: es2) rel)) },
           by rw [build_file_tree]; simp⟩
  · exact ⟨{ name := n, path := pathStr [], is_dir := true,
             children := some (sort_entries
               (build_children (es1 ++ FsEntry.dir m false sub :: es2) [])) },
           by rw [open_project, build_file_tree]; simp⟩

lemma fromJson_toJson (m : ProjectMeta) :
    ProjectMeta.fromJson (ProjectMeta.toJson m) = .ok m := by
  obtain ⟨lof, rf, ps⟩ := m
  cases lof <;> rfl

/-- C7: saving project metadata and loading it back succeeds and yields an
equal `ProjectMeta` value, for every metadata value, project root and prior
filesystem state. -/
theorem meta_roundtrip (fs : MetaFs) (root : List String) (m : ProjectMeta)
    (now : String) :
    load_project_meta (save_project_meta fs root m) root now = .ok m := by
  simp only [load_project_meta, save_project_meta, if_pos rfl]
  exact fromJson_toJson m

/-- C8: loading project metadata when `<root>/.incipit` is absent yields
`ProjectMeta::default` (`last_opened_file` `Some "main.tex"`, `root_file`
`"main.tex"`, and a settings object holding the creation timestamp), and
loading global settings when the settings file is absent yields
`GlobalSettings::default` (empty `recent_projects`, empty
`editor_settings`). -/
theorem defaults_on_missing (fs : MetaFs) (root : List String) (now : String)
    (h : fs (root ++ [".incipit"]) = none) :
    load_project_meta fs root now = .ok (ProjectMeta.default now) ∧
    (ProjectMeta.default now).last_opened_file = some "main.tex" ∧
    (ProjectMeta.default now).root_file = "main.tex" ∧
    (ProjectMeta.default now).project_settings
      = .obj [("created_at", .str now)] ∧
    load_global_settings true none = .ok GlobalSettings.default ∧
    GlobalSettings.default.recent_projects = [] ∧
    GlobalSettings.default.editor_settings = .obj [] := by
  refine ⟨?_, rfl, rfl, rfl, rfl, rfl, rfl⟩
  simp [load_project_meta, h]

theorem defaults_on_missing_witness :
    load_project_meta (fun _ => none) ["home", "proj"] "2024-01-01T00:00:00Z"
      = .ok (ProjectMeta.default "2024-01-01T00:00:00Z") ∧
    load_global_settings true none = .ok GlobalSettings.default :=
  ⟨(defaults_on_missing (fun _ => none) ["home", "proj"] "2024-01-01T00:00:00Z"
      rfl).1,
   (defaults_on_missing (fun _ => none) ["home", "proj"] "2024-01-01T00:00:00Z"
      rfl).2.2.2.2.1⟩

theorem command_surface_sandbox_witness :
    read_file fsA ["home", "proj"] ["..", "..", "etc", "passwd"]
      = .error accessDeniedMsg ∧
    save_file fsA ["home", "proj"] ["..", "..", "etc", "passwd"] "x"
      = .error accessDeniedMsg ∧
    (compile_latex_project envC1 ["home", "proj"] ["..", "evil.tex"] "x").1
      = [["home", "proj"] ++ ["..", "evil.tex"]] :=
  ⟨(command_surface_sandbox fsA envC1 ["home", "proj"]
      ["..", "..", "etc", "passwd"] ["home", "proj"] ["etc", "passwd"] "x"
      (by decide)).1 (by decide) (by decide),
   (command_surface_sandbox fsA envC1 ["home", "proj"]
      ["..", "..", "etc", "passwd"] ["home", "proj"] ["etc", "passwd"] "x"
      (by decide)).2.1 (by decide) (by decide) (by decide),
   (command_surface_sandbox fsA envC1 ["home", "proj"] ["..", "evil.tex"]
      ["home", "proj"] ["etc", "passwd"] "x" (by decide)).2.2 (by decide)⟩
